import Mathlib

/-!
Verification of the token-trackr cost and aggregation pipeline.

Shallow embedding of the Python sources:
  * `backend/core/pricing.py`   — `PricingEngine` (pricing resolution, cost calculation)
  * `backend/services/usage.py` — `UsageService.record_usage`, `get_daily_summary`
  * `backend/jobs/aggregation.py` — `DailyAggregationJob`, `MonthlyAggregationJob`
  * `backend/api/endpoints/usage.py` — `record_usage_batch`

Python `Decimal` values are modelled as exact rationals (`ℚ`); the final
`quantize(Decimal("0.0000000001"))` is modelled as round-half-even onto the
grid of integer multiples of 10⁻¹⁰.  Python `date` values are modelled as
integer day ordinals (`date.toordinal`), under which `timedelta(days = n)`
is `+ n` and date comparison is integer comparison.  Python dicts appearing
in the pricing configuration are modelled as association lists in insertion
order (dict iteration order).  Database tables are modelled as lists of rows,
and the two summary tables — whose rows are only ever addressed through their
uniqueness constraints `uq_daily_summary` / `uq_monthly_summary` — as maps
from key to optional row.
-/

namespace TokenTrackr

/-! ### Decimal model: quantization to 10 fractional digits -/

/-- Round a rational to an integer, ties to even — the `ROUND_HALF_EVEN`
default rounding of Python `Decimal`. -/
def roundHalfEven (q : ℚ) : ℤ :=
  let f : ℤ := ⌊q⌋
  let r : ℚ := q - f
  if r < 1/2 then f
  else if 1/2 < r then f + 1
  else if f % 2 = 0 then f else f + 1

/-- `x.quantize(Decimal("0.0000000001"))`: round to exactly 10 fractional
decimal digits, half-even. -/
def quantize10 (q : ℚ) : ℚ :=
  (roundHalfEven (q * 10 ^ 10) : ℚ) / 10 ^ 10

/-! ### ASCII lowercasing: Python `str.lower()` -/

/-- Python `str.lower()` modelled character-wise (ASCII case mapping, which
is all the provider names involved exercise). -/
def strLower (s : String) : String := String.mk (s.data.map Char.toLower)

/-! ### Association lists: Python `dict` in insertion order -/

/-- `d.get(k)` on a Python dict modelled as an association list. -/
def dictGet {α : Type} (k : String) : List (String × α) → Option α
  | [] => none
  | (k', v) :: rest => if k = k' then some v else dictGet k rest

/-! ### Pricing engine (`backend/core/pricing.py`) -/

/-- One entry of a provider's pricing table:
`{input_per_1k: ..., output_per_1k: ...}`. -/
structure ModelPrice where
  input_per_1k : ℚ
  output_per_1k : ℚ
deriving DecidableEq

/-- The state of `PricingEngine._pricing_data`: top-level provider tables,
the reserved `defaults` table, and `tenant_overrides`
(tenant_id → discount_percent). -/
structure PricingData where
  tables : List (String × List (String × ModelPrice))
  defaults : List (String × ModelPrice)
  tenant_overrides : List (String × ℚ)

/-- `PricingEngine._get_default_pricing`: built-in pricing used when the
config file is missing (this repository ships no `config/pricing.yaml`,
so this is the engine's operative configuration). -/
def defaultPricingData : PricingData :=
  { tables := []
  , defaults :=
      [ ("bedrock", ⟨0.002, 0.006⟩)
      , ("azure_openai", ⟨0.002, 0.006⟩)
      , ("gemini", ⟨0.001, 0.003⟩) ]
  , tenant_overrides := [] }

/-- `PricingEngine._normalize_provider`: lowercase, then collapse synonyms
via the hardcoded mapping (falling back to the lowercased name). -/
def normalizeProvider (provider : String) : String :=
  let p := strLower provider
  if p = "bedrock" then "bedrock"
  else if p = "aws_bedrock" then "bedrock"
  else if p = "azure_openai" then "azure_openai"
  else if p = "azure" then "azure_openai"
  else if p = "gemini" then "gemini"
  else if p = "google" then "gemini"
  else if p = "google_gemini" then "gemini"
  else p

/-- The partial-match loop of `get_model_pricing`:
first configured key `k` with `model.startswith(k) or k.startswith(model)`. -/
def findPrefixMatch (model : String) : List (String × ModelPrice) → Option ModelPrice
  | [] => none
  | (k, p) :: rest =>
    if model.startsWith k || k.startsWith model then some p
    else findPrefixMatch model rest

/-- Hardcoded global fallback of `get_model_pricing`
(`defaults.get("input_per_1k", 0.002)`, `defaults.get("output_per_1k", 0.006)`). -/
def globalDefaultPrice : ModelPrice := ⟨0.002, 0.006⟩

/-- `PricingEngine.get_model_pricing`: exact model key, then prefix match in
table iteration order, then the provider's `defaults` entry, then the
hardcoded global default. -/
def getModelPricing (cfg : PricingData) (provider model : String) : ℚ × ℚ :=
  let providerKey := normalizeProvider provider
  let providerPricing := (dictGet providerKey cfg.tables).getD []
  match dictGet model providerPricing with
  | some p => (p.input_per_1k, p.output_per_1k)
  | none =>
    match findPrefixMatch model providerPricing with
    | some p => (p.input_per_1k, p.output_per_1k)
    | none =>
      match dictGet providerKey cfg.defaults with
      | some p => (p.input_per_1k, p.output_per_1k)
      | none => (globalDefaultPrice.input_per_1k, globalDefaultPrice.output_per_1k)

/-- `PricingEngine._get_tenant_discount`:
`tenant_overrides.get(tenant_id, {}).get("discount_percent", 0)`. -/
def getTenantDiscount (cfg : PricingData) (tenant_id : String) : ℚ :=
  (dictGet tenant_id cfg.tenant_overrides).getD 0

/-- The discount used by `calculate_cost`: looked up only when a tenant id
was passed. -/
def discountOf (cfg : PricingData) : Option String → ℚ
  | some t => getTenantDiscount cfg t
  | none => 0

/-- `PricingEngine.calculate_cost`: per-1k pricing times token counts,
optional tenant discount (applied only when positive), quantized to
10 fractional digits. -/
def calculateCost (cfg : PricingData) (provider model : String)
    (prompt_tokens completion_tokens : ℕ) (tenant_id : Option String) : ℚ :=
  let pr := getModelPricing cfg provider model
  let discount := discountOf cfg tenant_id
  let input_cost := ((prompt_tokens : ℚ) / 1000) * pr.1
  let output_cost := ((completion_tokens : ℚ) / 1000) * pr.2
  let total_cost := input_cost + output_cost
  let total_cost := if 0 < discount then total_cost * (1 - discount / 100) else total_cost
  quantize10 total_cost

/-! ### Usage recorder (`backend/services/usage.py`, `backend/schemas/usage.py`) -/

/-- `schemas/usage.py` `UsageEvent`, with the host metadata already flattened
the way `record_usage` persists it.  The timestamp is an abstract instant
(validation already parsed it, with `"Z"` replaced by `"+00:00"`). -/
structure UsageEvent where
  tenant_id : String
  provider : String
  model : String
  prompt_tokens : ℕ
  completion_tokens : ℕ
  timestamp : ℤ
  latency_ms : Option ℕ
  cloud_provider : String
deriving DecidableEq

/-- The pydantic field constraints of `UsageEvent` that C9 names
(`prompt_tokens ≥ 0` and `completion_tokens ≥ 0` are carried by the `ℕ`
field types; a parseable timestamp is carried by the `ℤ` field type). -/
def ValidEvent (e : UsageEvent) : Prop :=
  e.provider ∈ ["bedrock", "azure_openai", "gemini"]
  ∧ 1 ≤ e.tenant_id.length ∧ e.tenant_id.length ≤ 255
  ∧ 1 ≤ e.model.length ∧ e.model.length ≤ 255

instance (e : UsageEvent) : Decidable (ValidEvent e) := by
  unfold ValidEvent
  infer_instance

/-- A persisted `token_usage_raw` row (the fields the pipeline reads). -/
structure PersistedUsage where
  tenant_id : String
  provider : String
  model : String
  prompt_tokens : ℕ
  completion_tokens : ℕ
  total_tokens : ℕ
  calculated_cost : ℚ
  timestamp : ℤ
  latency_ms : Option ℕ
  cloud_provider : String
deriving DecidableEq

/-- `UsageService.record_usage`: computes `total_tokens = prompt + completion`
and the cost via `PricingEngine.calculate_cost` with the event's tenant id,
then persists the row. -/
def recordUsage (cfg : PricingData) (e : UsageEvent) : PersistedUsage :=
  { tenant_id := e.tenant_id
  , provider := e.provider
  , model := e.model
  , prompt_tokens := e.prompt_tokens
  , completion_tokens := e.completion_tokens
  , total_tokens := e.prompt_tokens + e.completion_tokens
  , calculated_cost := calculateCost cfg e.provider e.model
      e.prompt_tokens e.completion_tokens (some e.tenant_id)
  , timestamp := e.timestamp
  , latency_ms := e.latency_ms
  , cloud_provider := e.cloud_provider }

/-- A pricing configuration whose prices are nonnegative and whose tenant
discounts are percentages in [0, 100]. -/
def WellFormedPricing (cfg : PricingData) : Prop :=
  (∀ entry ∈ cfg.tables, ∀ mp ∈ entry.2,
    0 ≤ mp.2.input_per_1k ∧ 0 ≤ mp.2.output_per_1k)
  ∧ (∀ dp ∈ cfg.defaults, 0 ≤ dp.2.input_per_1k ∧ 0 ≤ dp.2.output_per_1k)
  ∧ (∀ t ∈ cfg.tenant_overrides, 0 ≤ t.2 ∧ t.2 ≤ 100)

/-- The loop body of `record_usage_batch`: on success append the response,
on failure log and `continue`. -/
def batchStep {ε ρ : Type} (record1 : UsageEvent → Except ε ρ)
    (results : List ρ) (e : UsageEvent) : List ρ :=
  match record1 e with
  | Except.ok r => results ++ [r]
  | Except.error _ => results

/-- `record_usage_batch` (`backend/api/endpoints/usage.py`): batches over
1000 events are rejected with an HTTP 400 validation error; otherwise each
event is recorded independently through the abstracted per-event recorder
`record1` (`UsageService.record_usage` plus its try/except), successes are
appended to the result list and failures are skipped. -/
def recordUsageBatch {ε ρ : Type} (record1 : UsageEvent → Except ε ρ)
    (events : List UsageEvent) : Except String (List ρ) :=
  if events.length > 1000 then
    Except.error "Maximum batch size is 1000 events"
  else
    Except.ok (events.foldl (batchStep record1) [])

/-! ### Upsert stores

The two summary tables are only ever addressed through their uniqueness
constraints (`uq_daily_summary`, `uq_monthly_summary`), so they are modelled
as maps from key to optional row; `pg_insert(...).on_conflict_do_update`
with full-overwrite `set_` is a pointwise update. -/

/-- `INSERT ... ON CONFLICT DO UPDATE` with every aggregate field freshly
assigned: the row at `k` becomes `v` whether or not a row existed. -/
def upsert {κ ν : Type} [DecidableEq κ] (s : κ → Option ν) (k : κ) (v : ν) :
    κ → Option ν :=
  fun k' => if k' = k then some v else s k'

/-! ### Daily aggregation (`backend/jobs/aggregation.py`, `DailyAggregationJob`) -/

/-- A `token_usage_raw` row as read by the daily aggregation query; `date` is
`func.date(timestamp)`, the calendar date of the event timestamp as a day
ordinal. -/
structure RawRow where
  tenant_id : String
  provider : String
  model : String
  cloud_provider : String
  prompt_tokens : ℕ
  completion_tokens : ℕ
  total_tokens : ℕ
  calculated_cost : ℚ
  date : ℤ
  latency_ms : Option ℕ
deriving DecidableEq

/-- A concrete raw-event row used to instantiate the daily-aggregation
theorems (day ordinal 7, 100 ms latency). -/
def sampleRaw : RawRow :=
  { tenant_id := "t1", provider := "bedrock", model := "m"
  , cloud_provider := "aws", prompt_tokens := 10, completion_tokens := 5
  , total_tokens := 15, calculated_cost := 3, date := 7
  , latency_ms := some 100 }

/-- A second concrete raw-event row for the same partition as `sampleRaw`
but with a different latency, and two zero-latency rows for a second
partition. -/
def sampleRaw2 : RawRow :=
  { sampleRaw with
      prompt_tokens := 4, completion_tokens := 2, total_tokens := 6,
      calculated_cost := 1, latency_ms := some 101 }

def sampleRawZero : RawRow :=
  { sampleRaw with model := "m2", latency_ms := some 0 }

def sampleRawZero2 : RawRow :=
  { sampleRaw with model := "m2", latency_ms := some 0, prompt_tokens := 1 }

/-- The `uq_daily_summary` uniqueness constraint:
(tenant_id, date, provider, model, cloud_provider). -/
structure DailyKey where
  tenant_id : String
  date : ℤ
  provider : String
  model : String
  cloud_provider : String
deriving DecidableEq

/-- Aggregate fields of a `tenant_daily_summary` row. -/
structure DailyRow where
  total_requests : ℕ
  total_prompt_tokens : ℕ
  total_completion_tokens : ℕ
  total_tokens : ℕ
  total_cost : ℚ
  avg_latency_ms : Option ℤ
deriving DecidableEq

def rawKey (e : RawRow) : DailyKey :=
  ⟨e.tenant_id, e.date, e.provider, e.model, e.cloud_provider⟩

/-- `WHERE func.date(timestamp) == target_date`. -/
def dailyFiltered (d : ℤ) (raws : List RawRow) : List RawRow :=
  raws.filter (fun e => decide (e.date = d))

/-- The events of the partition keyed by `k` among the target date's events
(`GROUP BY tenant_id, provider, model, cloud_provider`). -/
def groupOf (d : ℤ) (raws : List RawRow) (k : DailyKey) : List RawRow :=
  (dailyFiltered d raws).filter (fun e => decide (rawKey e = k))

/-- The distinct partition keys the grouped query returns for `target_date`. -/
def dailyKeys (d : ℤ) (raws : List RawRow) : List DailyKey :=
  ((dailyFiltered d raws).map rawKey).dedup

/-- `func.avg(latency_ms)`: SQL `AVG` ignores NULLs and returns NULL on an
empty set. -/
def avgLatency (l : List RawRow) : Option ℚ :=
  let ls := l.filterMap (·.latency_ms)
  if ls.length = 0 then none else some ((ls.sum : ℚ) / ls.length)

/-- Python `int(q)`: truncation toward zero. -/
def truncInt (q : ℚ) : ℤ := Int.tdiv q.num q.den

/-- `int(row.avg_latency_ms) if row.avg_latency_ms else None`: both SQL NULL
(no event of the partition reported a latency) and an average equal to 0 are
falsy, so both store NULL. -/
def storedAvgLatency (l : List RawRow) : Option ℤ :=
  match avgLatency l with
  | none => none
  | some a => if a = 0 then none else some (truncInt a)

/-- The aggregate row the daily job computes for one partition
(count, token sums, cost sum, average latency). -/
def dailyRowOf (l : List RawRow) : DailyRow :=
  { total_requests := l.length
  , total_prompt_tokens := (l.map (·.prompt_tokens)).sum
  , total_completion_tokens := (l.map (·.completion_tokens)).sum
  , total_tokens := (l.map (·.total_tokens)).sum
  , total_cost := (l.map (·.calculated_cost)).sum
  , avg_latency_ms := storedAvgLatency l }

/-- `DailyAggregationJob.run`'s effect on the daily summary table: one
full-overwrite upsert per partition of the target date's raw events. -/
def runDailyStore (d : ℤ) (raws : List RawRow)
    (s : DailyKey → Option DailyRow) : DailyKey → Option DailyRow :=
  (dailyKeys d raws).foldl
    (fun acc k => upsert acc k (dailyRowOf (groupOf d raws k))) s

/-- `DailyAggregationJob.run`'s return value: the number of summary records
created/updated. -/
def runDailyCount (d : ℤ) (raws : List RawRow) : ℕ :=
  (dailyKeys d raws).length

/-- `DailyAggregationJob.backfill`: `while current <= end_date`, run the
daily job for `current`, advance one day, and sum the returned counts. -/
def backfill (startD endD : ℤ) (raws : List RawRow)
    (s : DailyKey → Option DailyRow) : (DailyKey → Option DailyRow) × ℕ :=
  if h : startD ≤ endD then
    let rest := backfill (startD + 1) endD raws (runDailyStore startD raws s)
    (rest.1, runDailyCount startD raws + rest.2)
  else (s, 0)
termination_by (endD + 1 - startD).toNat
decreasing_by
  simp_wf
  omega

/-- The calendar days of the inclusive range `[startD, endD]`, in order. -/
def dateRange (startD endD : ℤ) : List ℤ :=
  (List.range (endD + 1 - startD).toNat).map (fun (i : ℕ) => startD + (i : ℤ))

/-! ### Monthly aggregation (`MonthlyAggregationJob`) and the calendar -/

/-- The Gregorian leap-year rule of Python `datetime.date`. -/
def IsLeap (y : ℤ) : Prop := (y % 4 = 0 ∧ y % 100 ≠ 0) ∨ y % 400 = 0

instance (y : ℤ) : Decidable (IsLeap y) :=
  inferInstanceAs (Decidable ((y % 4 = 0 ∧ y % 100 ≠ 0) ∨ y % 400 = 0))

/-- Number of days of month `m` of year `y`. -/
def daysInMonth (y m : ℤ) : ℤ :=
  if m = 2 then (if IsLeap y then 29 else 28)
  else if m = 4 ∨ m = 6 ∨ m = 9 ∨ m = 11 then 30
  else 31

/-- Cumulative number of days of year `y` strictly before month `m`. -/
def daysBeforeMonth (y m : ℤ) : ℤ :=
  if m = 1 then 0
  else if m = 2 then 31
  else (if m = 3 then 59 else if m = 4 then 90 else if m = 5 then 120
    else if m = 6 then 151 else if m = 7 then 181 else if m = 8 then 212
    else if m = 9 then 243 else if m = 10 then 273 else if m = 11 then 304
    else 334) + (if IsLeap y then 1 else 0)

/-- Number of leap years in `[1, y-1]` (for `y ≥ 1`). -/
def leapsBefore (y : ℤ) : ℤ := (y - 1) / 4 - (y - 1) / 100 + (y - 1) / 400

/-- `date(y, m, d).toordinal()`: the proleptic Gregorian day number backing
the day-ordinal date model. -/
def toOrd (y m d : ℤ) : ℤ :=
  365 * (y - 1) + leapsBefore y + daysBeforeMonth y m + d

/-- `first_day = date(year, month, 1)` of `MonthlyAggregationJob.run`. -/
def monthFirstDay (y m : ℤ) : ℤ := toOrd y m 1

/-- `last_day` of `MonthlyAggregationJob.run`:
`date(year+1, 1, 1) - timedelta(days=1)` when `month == 12`, otherwise
`date(year, month+1, 1) - timedelta(days=1)`. -/
def monthLastDay (y m : ℤ) : ℤ :=
  if m = 12 then toOrd (y + 1) 1 1 - 1 else toOrd y (m + 1) 1 - 1

/-- A `tenant_daily_summary` row (key columns and aggregate fields), as read
by the monthly job and by the summary query layer. -/
structure DailySumRow where
  tenant_id : String
  date : ℤ
  provider : String
  model : String
  cloud_provider : String
  total_requests : ℕ
  total_prompt_tokens : ℕ
  total_completion_tokens : ℕ
  total_tokens : ℕ
  total_cost : ℚ
  avg_latency_ms : Option ℤ
deriving DecidableEq

/-- The `uq_monthly_summary` uniqueness constraint:
(tenant_id, year, month, provider, model). -/
structure MonthlyKey where
  tenant_id : String
  year : ℤ
  month : ℤ
  provider : String
  model : String
deriving DecidableEq

/-- Aggregate fields of a `tenant_monthly_summary` row. -/
structure MonthlyRow where
  total_requests : ℕ
  total_prompt_tokens : ℕ
  total_completion_tokens : ℕ
  total_tokens : ℕ
  total_cost : ℚ
deriving DecidableEq

/-- `WHERE date >= first_day AND date <= last_day`. -/
def monthlyFiltered (y m : ℤ) (rows : List DailySumRow) : List DailySumRow :=
  rows.filter (fun r =>
    decide (monthFirstDay y m ≤ r.date ∧ r.date ≤ monthLastDay y m))

/-- The month's daily rows of the group keyed by tenant/provider/model —
the `cloud_provider` dimension is dropped at this level. -/
def monthlyGroupOf (y m : ℤ) (rows : List DailySumRow) (k : MonthlyKey) :
    List DailySumRow :=
  (monthlyFiltered y m rows).filter (fun r =>
    decide (r.tenant_id = k.tenant_id ∧ r.provider = k.provider ∧ r.model = k.model))

def monthlyKeyOf (y m : ℤ) (r : DailySumRow) : MonthlyKey :=
  ⟨r.tenant_id, y, m, r.provider, r.model⟩

/-- The distinct group keys of the monthly grouped query. -/
def monthlyKeys (y m : ℤ) (rows : List DailySumRow) : List MonthlyKey :=
  ((monthlyFiltered y m rows).map (monthlyKeyOf y m)).dedup

/-- The aggregate row the monthly job computes for one group
(sums of the group's daily aggregates). -/
def monthlyRowOf (l : List DailySumRow) : MonthlyRow :=
  { total_requests := (l.map (·.total_requests)).sum
  , total_prompt_tokens := (l.map (·.total_prompt_tokens)).sum
  , total_completion_tokens := (l.map (·.total_completion_tokens)).sum
  , total_tokens := (l.map (·.total_tokens)).sum
  , total_cost := (l.map (·.total_cost)).sum }

/-- `MonthlyAggregationJob.run`'s effect on the monthly summary table: one
full-overwrite upsert per tenant/provider/model group of the month's daily
summary rows. -/
def runMonthlyStore (y m : ℤ) (rows : List DailySumRow)
    (s : MonthlyKey → Option MonthlyRow) : MonthlyKey → Option MonthlyRow :=
  (monthlyKeys y m rows).foldl
    (fun acc k => upsert acc k (monthlyRowOf (monthlyGroupOf y m rows k))) s

/-- A concrete daily summary row (date ordinal 738890 = 2024-01-05) used to
instantiate the monthly-aggregation theorem. -/
def sampleDaily : DailySumRow :=
  { tenant_id := "t1", date := 738890, provider := "bedrock", model := "m"
  , cloud_provider := "aws", total_requests := 2, total_prompt_tokens := 100
  , total_completion_tokens := 50, total_tokens := 150, total_cost := 5
  , avg_latency_ms := some 100 }

/-- A concrete valid usage event (the spec's scenario event). -/
def sampleEvent : UsageEvent :=
  { tenant_id := "t1", provider := "bedrock", model := "anthropic.claude-3-sonnet"
  , prompt_tokens := 1000, completion_tokens := 500, timestamp := 0
  , latency_ms := none, cloud_provider := "aws" }

/-! ### Summary query layer (`UsageService.get_daily_summary`) -/

/-- `schemas/usage.py` `DailySummaryResponse` (items carried as summary
rows). -/
structure DailySummaryResponse where
  tenant_id : String
  start_date : ℤ
  end_date : ℤ
  items : List DailySumRow
  total_cost : ℚ
  total_tokens : ℕ

/-- `UsageService.get_daily_summary`: `end_date` defaults to today,
`start_date` to `end_date - timedelta(days=30)`; the tenant's rows in the
inclusive window are returned ordered by date descending, and the
total cost/tokens rollup is summed over the returned items in Python, not
re-queried from the database. -/
def getDailySummary (table : List DailySumRow) (tenant : String) (today : ℤ)
    (startD endD : Option ℤ) : DailySummaryResponse :=
  let e := endD.getD today
  let s := startD.getD (e - 30)
  let rows := (table.filter (fun r =>
      decide (r.tenant_id = tenant ∧ s ≤ r.date ∧ r.date ≤ e))).mergeSort
      (fun a b => decide (b.date ≤ a.date))
  { tenant_id := tenant
  , start_date := s
  , end_date := e
  , items := rows
  , total_cost := (rows.map (·.total_cost)).sum
  , total_tokens := (rows.map (·.total_tokens)).sum }

/-- Spec side of C2, following the spec's words: (a) exact model key in the
normalized provider's table; (b) otherwise the first configured key in table
iteration order such that the requested model is a prefix of the key or vice
versa; (c) otherwise the provider-level `defaults` entry; and when the
provider has no defaults entry, the hardcoded global default 0.002 / 0.006. -/
def resolveSpec (cfg : PricingData) (provider model : String) : ℚ × ℚ :=
  let key := normalizeProvider provider
  let tbl := (dictGet key cfg.tables).getD []
  let chosen : Option ModelPrice :=
    match dictGet model tbl with
    | some p => some p
    | none =>
      match tbl.find? (fun kv => model.startsWith kv.1 || kv.1.startsWith model) with
      | some kv => some kv.2
      | none => dictGet key cfg.defaults
  match chosen with
  | some p => (p.input_per_1k, p.output_per_1k)
  | none => (0.002, 0.006)

/-! ### Foundational lemmas: quantization, lowercasing, dict lookup -/

theorem roundHalfEven_nonneg {q : ℚ} (h : 0 ≤ q) : 0 ≤ roundHalfEven q := by
  unfold roundHalfEven
  have hf : (0 : ℤ) ≤ ⌊q⌋ := Int.floor_nonneg.mpr h
  dsimp only
  split
  · exact hf
  · split
    · omega
    · split <;> omega

theorem roundHalfEven_pos {q : ℚ} (h : 1 ≤ q) : 1 ≤ roundHalfEven q := by
  unfold roundHalfEven
  have hf : (1 : ℤ) ≤ ⌊q⌋ := by
    have := Int.le_floor.mpr (by exact_mod_cast h : ((1 : ℤ) : ℚ) ≤ q)
    omega
  dsimp only
  split
  · exact hf
  · split
    · omega
    · split <;> omega

theorem quantize10_nonneg {q : ℚ} (h : 0 ≤ q) : 0 ≤ quantize10 q := by
  unfold quantize10
  have h1 : (0 : ℚ) ≤ q * 10 ^ 10 := by positivity
  have h2 := roundHalfEven_nonneg h1
  positivity

theorem quantize10_zero : quantize10 0 = 0 := by
  unfold quantize10 roundHalfEven
  norm_num

theorem quantize10_pos {q : ℚ} (h : 1 / 10 ^ 10 ≤ q) : 0 < quantize10 q := by
  unfold quantize10
  have h1 : (1 : ℚ) ≤ q * 10 ^ 10 := by
    rw [div_le_iff₀ (by norm_num)] at h
    linarith
  have h2 := roundHalfEven_pos h1
  have h3 : (1 : ℚ) ≤ (roundHalfEven (q * 10 ^ 10) : ℚ) := by exact_mod_cast h2
  positivity

/-- Every quantized value lies on the grid of integer multiples of 10⁻¹⁰,
i.e. it has exactly 10 fractional decimal digits. -/
theorem quantize10_grid (q : ℚ) : ∃ z : ℤ, quantize10 q = (z : ℚ) / 10 ^ 10 :=
  ⟨roundHalfEven (q * 10 ^ 10), rfl⟩

/-- Values already on the 10⁻¹⁰ grid are fixed by quantization. -/
theorem quantize10_of_grid (z : ℤ) : quantize10 ((z : ℚ) / 10 ^ 10) = (z : ℚ) / 10 ^ 10 := by
  unfold quantize10
  have h : ((z : ℚ) / 10 ^ 10) * 10 ^ 10 = (z : ℚ) := by
    field_simp
  rw [h, roundHalfEven]
  norm_num [Int.floor_intCast]

theorem char_toNat_ofNat {n : ℕ} (h : n.isValidChar) : (Char.ofNat n).toNat = n := by
  simp [Char.ofNat, h, Char.toNat, Char.ofNatAux, UInt32.toNat, UInt32.ofNatCore]

theorem charToLower_idem (c : Char) : c.toLower.toLower = c.toLower := by
  have key : ¬ (c.toLower.toNat ≥ 65 ∧ c.toLower.toNat ≤ 90) := by
    simp only [Char.toLower]
    split
    · rename_i h
      have hv : Nat.isValidChar (c.toNat + 32) := Or.inl (by omega)
      rw [char_toNat_ofNat hv]
      omega
    · rename_i h
      omega
  show (if c.toLower.toNat ≥ 65 ∧ c.toLower.toNat ≤ 90
        then Char.ofNat (c.toLower.toNat + 32) else c.toLower) = c.toLower
  rw [if_neg key]

theorem strLower_idem (s : String) : strLower (strLower s) = strLower s := by
  unfold strLower
  congr 1
  show (s.data.map Char.toLower).map Char.toLower = s.data.map Char.toLower
  rw [List.map_map]
  exact List.map_congr_left (fun c _ => charToLower_idem c)

theorem dictGet_mem {α : Type} {k : String} {l : List (String × α)} {v : α}
    (h : dictGet k l = some v) : (k, v) ∈ l := by
  induction l with
  | nil => simp [dictGet] at h
  | cons hd tl ih =>
    obtain ⟨k', v'⟩ := hd
    rw [dictGet] at h
    split at h
    · rename_i heq
      subst heq
      cases h
      exact List.mem_cons_self _ _
    · exact List.mem_cons_of_mem _ (ih h)

theorem findPrefixMatch_eq_find (model : String) (l : List (String × ModelPrice)) :
    findPrefixMatch model l
      = (l.find? (fun kv => model.startsWith kv.1 || kv.1.startsWith model)).map Prod.snd := by
  induction l with
  | nil => rfl
  | cons hd tl ih =>
    obtain ⟨k, p⟩ := hd
    rw [findPrefixMatch, List.find?]
    by_cases h : (model.startsWith k || k.startsWith model) = true
    · simp [h]
    · simp only [Bool.not_eq_true] at h
      simp [h, ih]

theorem normalizeProvider_lower (s : String) :
    normalizeProvider (strLower s) = normalizeProvider s := by
  unfold normalizeProvider
  rw [strLower_idem]

/-- Resolved default prices: without a config file every provider/model
resolves through the built-in `defaults` table or the global fallback, all
of whose prices lie in [1/1000, 6/1000]. -/
theorem default_prices_bounds (provider model : String) :
    1/1000 ≤ (getModelPricing defaultPricingData provider model).1
    ∧ (getModelPricing defaultPricingData provider model).1 ≤ 6/1000
    ∧ 1/1000 ≤ (getModelPricing defaultPricingData provider model).2
    ∧ (getModelPricing defaultPricingData provider model).2 ≤ 6/1000 := by
  unfold getModelPricing defaultPricingData
  simp only [dictGet, Option.getD_none, findPrefixMatch]
  split_ifs <;> norm_num [globalDefaultPrice]

theorem default_discount_zero (tid : Option String) :
    discountOf defaultPricingData tid = 0 := by
  cases tid with
  | none => rfl
  | some t => rfl

/-- Zeta-reduced form of `calculateCost`. -/
theorem calculateCost_eq (cfg : PricingData) (provider model : String)
    (p c : ℕ) (tid : Option String) :
    calculateCost cfg provider model p c tid
      = quantize10 (if 0 < discountOf cfg tid
          then ((p : ℚ) / 1000 * (getModelPricing cfg provider model).1
              + (c : ℚ) / 1000 * (getModelPricing cfg provider model).2)
              * (1 - discountOf cfg tid / 100)
          else ((p : ℚ) / 1000 * (getModelPricing cfg provider model).1
              + (c : ℚ) / 1000 * (getModelPricing cfg provider model).2)) := rfl

theorem calculateCost_default_eval (provider model : String) (p c : ℕ)
    (tid : Option String) :
    calculateCost defaultPricingData provider model p c tid
      = quantize10 ((p : ℚ) / 1000 * (getModelPricing defaultPricingData provider model).1
          + (c : ℚ) / 1000 * (getModelPricing defaultPricingData provider model).2) := by
  unfold calculateCost
  rw [default_discount_zero]
  norm_num

/-! ### Claim theorems: pricing -/

/-- C1: `calculate_cost` returns
`(p/1000)·inputPrice + (c/1000)·outputPrice`, multiplied by `(1 − D/100)`
when the tenant has a configured discount percentage `D ≥ 0`, the result
lying exactly on the 10-fractional-decimal-digit grid of exact decimal
arithmetic; and the scenario prompt=1000, completion=500 under default
bedrock pricing yields exactly 0.0050000000. -/
theorem calculate_cost_formula (cfg : PricingData) (provider model : String)
    (p c : ℕ) (tid : Option String) (hD : 0 ≤ discountOf cfg tid) :
    calculateCost cfg provider model p c tid
      = quantize10 (((p : ℚ) / 1000 * (getModelPricing cfg provider model).1
          + (c : ℚ) / 1000 * (getModelPricing cfg provider model).2)
          * (1 - discountOf cfg tid / 100))
    ∧ (∃ z : ℤ, calculateCost cfg provider model p c tid = (z : ℚ) / 10 ^ 10)
    ∧ calculateCost defaultPricingData "bedrock" "anthropic.claude-3-sonnet" 1000 500
        (some "t1") = 0.005 := by
  refine ⟨?_, quantize10_grid _, ?_⟩
  · rw [calculateCost_eq]
    by_cases h : 0 < discountOf cfg tid
    · rw [if_pos h]
    · rw [if_neg h]
      have h0 : discountOf cfg tid = 0 := le_antisymm (not_lt.mp h) hD
      rw [h0]
      norm_num
  · have h1 : getModelPricing defaultPricingData "bedrock" "anthropic.claude-3-sonnet"
        = (0.002, 0.006) := by
      have hn : normalizeProvider "bedrock" = "bedrock" := by decide
      unfold getModelPricing defaultPricingData
      rw [hn]
      simp [dictGet, findPrefixMatch]
    rw [calculateCost_default_eval, h1]
    have harg : ((1000 : ℕ) : ℚ) / 1000 * (0.002, (0.006 : ℚ)).1
        + ((500 : ℕ) : ℚ) / 1000 * (0.002, (0.006 : ℚ)).2
        = ((50000000 : ℤ) : ℚ) / 10 ^ 10 := by norm_num
    rw [harg, quantize10_of_grid]
    norm_num

/-- C2: `get_model_pricing` resolves in the order (a) exact model key in the
case-insensitively normalized, synonym-collapsed provider's table, (b) first
prefix match in table iteration order (either direction), (c) provider-level
defaults, falling back to the hardcoded global default 0.002 / 0.006; and
provider normalization is case-insensitive and collapses the synonyms. -/
theorem get_model_pricing_resolution (cfg : PricingData) (provider model : String) :
    getModelPricing cfg provider model = resolveSpec cfg provider model
    ∧ normalizeProvider (strLower provider) = normalizeProvider provider
    ∧ normalizeProvider "aws_bedrock" = normalizeProvider "bedrock"
    ∧ normalizeProvider "google" = normalizeProvider "gemini"
    ∧ normalizeProvider "AWS_Bedrock" = "bedrock"
    ∧ normalizeProvider "GOOGLE_GEMINI" = "gemini"
    ∧ normalizeProvider "Azure" = "azure_openai" := by
  refine ⟨?_, normalizeProvider_lower provider, by decide, by decide, by decide,
    by decide, by decide⟩
  simp only [getModelPricing, resolveSpec]
  rw [findPrefixMatch_eq_find]
  cases dictGet model ((dictGet (normalizeProvider provider) cfg.tables).getD []) with
  | some p => rfl
  | none =>
    cases hf : ((dictGet (normalizeProvider provider) cfg.tables).getD []).find?
        (fun kv => model.startsWith kv.1 || kv.1.startsWith model) with
    | some kv => simp [hf]
    | none =>
      simp only [hf, Option.map_none]
      cases dictGet (normalizeProvider provider) cfg.defaults with
      | some p => rfl
      | none => rfl

/-- C6: under the engine's operative (built-in default) pricing
configuration, for all providers, models, token counts and optional tenant,
the computed cost is nonnegative, and it is zero exactly when both token
counts are zero. -/
theorem cost_nonneg_and_zero_iff (provider model : String) (p c : ℕ)
    (tid : Option String) :
    0 ≤ calculateCost defaultPricingData provider model p c tid
    ∧ (calculateCost defaultPricingData provider model p c tid = 0
        ↔ p = 0 ∧ c = 0) := by
  obtain ⟨hi1, hi2, ho1, ho2⟩ := default_prices_bounds provider model
  rw [calculateCost_default_eval]
  generalize hI : (getModelPricing defaultPricingData provider model).1 = i at hi1 hi2 ⊢
  generalize hO : (getModelPricing defaultPricingData provider model).2 = o at ho1 ho2 ⊢
  have hi0 : (0:ℚ) ≤ i := le_trans (by norm_num) hi1
  have ho0 : (0:ℚ) ≤ o := le_trans (by norm_num) ho1
  have hargnn : 0 ≤ (p : ℚ) / 1000 * i + (c : ℚ) / 1000 * o :=
    add_nonneg (mul_nonneg (by positivity) hi0) (mul_nonneg (by positivity) ho0)
  refine ⟨quantize10_nonneg hargnn, ?_, ?_⟩
  · intro hz
    by_contra hne
    have hone : 1 ≤ p ∨ 1 ≤ c := by
      rcases Nat.eq_zero_or_pos p with hp | hp
      · rcases Nat.eq_zero_or_pos c with hc | hc
        · exact absurd ⟨hp, hc⟩ hne
        · exact Or.inr hc
      · exact Or.inl hp
    have harg : 1 / 10 ^ 10 ≤ (p : ℚ) / 1000 * i + (c : ℚ) / 1000 * o := by
      rcases hone with hp | hc
      · have hp' : (1:ℚ) ≤ (p : ℚ) := by exact_mod_cast hp
        have h1 : (1:ℚ) / 1000 * (1/1000) ≤ (p : ℚ) / 1000 * i := by
          apply mul_le_mul
          · linarith
          · exact hi1
          · norm_num
          · positivity
        have h2 : (0:ℚ) ≤ (c : ℚ) / 1000 * o := mul_nonneg (by positivity) ho0
        nlinarith
      · have hc' : (1:ℚ) ≤ (c : ℚ) := by exact_mod_cast hc
        have h1 : (1:ℚ) / 1000 * (1/1000) ≤ (c : ℚ) / 1000 * o := by
          apply mul_le_mul
          · linarith
          · exact ho1
          · norm_num
          · positivity
        have h2 : (0:ℚ) ≤ (p : ℚ) / 1000 * i := mul_nonneg (by positivity) hi0
        nlinarith
    have hpos := quantize10_pos harg
    rw [hz] at hpos
    exact lt_irrefl _ hpos
  · rintro ⟨hp, hc⟩
    subst hp
    subst hc
    rw [show ((0:ℕ):ℚ) / 1000 * i + ((0:ℕ):ℚ) / 1000 * o = 0 by norm_num]
    exact quantize10_zero

/-! ### Upsert-store lemmas -/

/-- After folding an upsert per key, a key holds its freshly computed value —
independent of the starting store — and other keys are untouched. -/
theorem foldl_upsert_lookup {κ ν : Type} [DecidableEq κ] (val : κ → ν)
    (keys : List κ) (s : κ → Option ν) (k : κ) :
    (keys.foldl (fun acc k' => upsert acc k' (val k')) s) k
      = if k ∈ keys then some (val k) else s k := by
  induction keys generalizing s with
  | nil => simp
  | cons hd tl ih =>
    rw [List.foldl_cons, ih]
    by_cases hmem : k ∈ tl
    · simp [hmem]
    · by_cases hk : k = hd
      · subst hk
        simp [hmem, upsert]
      · simp [hmem, hk, upsert, List.mem_cons]

theorem runDailyStore_lookup (d : ℤ) (raws : List RawRow)
    (s : DailyKey → Option DailyRow) (k : DailyKey) :
    runDailyStore d raws s k
      = if k ∈ dailyKeys d raws then some (dailyRowOf (groupOf d raws k))
        else s k :=
  foldl_upsert_lookup (fun k' => dailyRowOf (groupOf d raws k')) (dailyKeys d raws) s k

theorem runMonthlyStore_lookup (y m : ℤ) (rows : List DailySumRow)
    (s : MonthlyKey → Option MonthlyRow) (k : MonthlyKey) :
    runMonthlyStore y m rows s k
      = if k ∈ monthlyKeys y m rows then some (monthlyRowOf (monthlyGroupOf y m rows k))
        else s k :=
  foldl_upsert_lookup (fun k' => monthlyRowOf (monthlyGroupOf y m rows k'))
    (monthlyKeys y m rows) s k

/-! ### Claim theorems: daily aggregation -/

/-- C3: re-running the daily job for the same date with unchanged raw data
leaves the daily summary store unchanged (idempotence); a run over changed
raw data overwrites the row at each produced key with freshly computed
aggregates, independent of whatever row was there (no duplicate, no deltas);
and a date with zero matching raw events writes no row and reports 0. -/
theorem daily_aggregation_idempotent (d : ℤ) (raws : List RawRow)
    (s : DailyKey → Option DailyRow) (k : DailyKey) :
    runDailyStore d raws (runDailyStore d raws s) = runDailyStore d raws s
    ∧ (k ∈ dailyKeys d raws →
        runDailyStore d raws s k = some (dailyRowOf (groupOf d raws k)))
    ∧ (dailyFiltered d raws = [] →
        runDailyStore d raws s = s ∧ runDailyCount d raws = 0) := by
  refine ⟨?_, ?_, ?_⟩
  · funext k'
    rw [runDailyStore_lookup, runDailyStore_lookup]
    by_cases hmem : k' ∈ dailyKeys d raws
    · simp [hmem]
    · simp [hmem, runDailyStore_lookup]
  · intro hk
    rw [runDailyStore_lookup, if_pos hk]
  · intro hempty
    have hkeys : dailyKeys d raws = [] := by
      unfold dailyKeys
      rw [hempty]
      rfl
    constructor
    · unfold runDailyStore
      rw [hkeys]
      rfl
    · unfold runDailyCount
      rw [hkeys]
      rfl

/-- Witness for C3 at concrete inputs: a one-event date (partition key
present, row freshly computed) and an empty raw table (no row written). -/
theorem daily_aggregation_idempotent_witness :
    (rawKey sampleRaw ∈ dailyKeys 7 [sampleRaw])
    ∧ runDailyStore 7 [sampleRaw] (fun _ => none) (rawKey sampleRaw)
        = some (dailyRowOf (groupOf 7 [sampleRaw] (rawKey sampleRaw)))
    ∧ dailyFiltered 7 ([] : List RawRow) = []
    ∧ runDailyStore 7 [] (fun _ => none) = (fun _ => none)
    ∧ runDailyCount 7 [] = 0 := by
  have hmem : rawKey sampleRaw ∈ dailyKeys 7 [sampleRaw] := by decide
  have hempty : dailyFiltered 7 ([] : List RawRow) = [] := rfl
  refine ⟨hmem, ?_, hempty, ?_, ?_⟩
  · exact (daily_aggregation_idempotent 7 [sampleRaw] (fun _ => none)
      (rawKey sampleRaw)).2.1 hmem
  · exact ((daily_aggregation_idempotent 7 [] (fun _ => none)
      (rawKey sampleRaw)).2.2 hempty).1
  · exact ((daily_aggregation_idempotent 7 [] (fun _ => none)
      (rawKey sampleRaw)).2.2 hempty).2

/-- C10: in a daily run, a partition whose average latency over the events
that reported one computes to exactly 0 stores NULL for `avg_latency_ms`
(0 is falsy in Python), and a non-zero average is truncated toward zero
to an integer before storing. -/
theorem daily_avg_latency_zero_is_null (d : ℤ) (raws : List RawRow)
    (s : DailyKey → Option DailyRow) (k : DailyKey) (hk : k ∈ dailyKeys d raws) :
    (avgLatency (groupOf d raws k) = some 0 →
      ∃ r, runDailyStore d raws s k = some r ∧ r.avg_latency_ms = none)
    ∧ (∀ a : ℚ, avgLatency (groupOf d raws k) = some a → a ≠ 0 →
      ∃ r, runDailyStore d raws s k = some r
        ∧ r.avg_latency_ms = some (truncInt a)) := by
  have hrow := runDailyStore_lookup d raws s k
  rw [if_pos hk] at hrow
  constructor
  · intro hz
    refine ⟨dailyRowOf (groupOf d raws k), hrow, ?_⟩
    show storedAvgLatency (groupOf d raws k) = none
    unfold storedAvgLatency
    rw [hz]
    simp
  · intro a ha hne
    refine ⟨dailyRowOf (groupOf d raws k), hrow, ?_⟩
    show storedAvgLatency (groupOf d raws k) = some (truncInt a)
    unfold storedAvgLatency
    rw [ha]
    simp [hne]

/-- Witness for C10: a partition whose two reported latencies are both 0
stores NULL, and a partition with latencies 100 and 101 ms (average 201/2)
stores the truncation of 201/2. -/
theorem daily_avg_latency_zero_is_null_witness :
    (rawKey sampleRawZero ∈ dailyKeys 7 [sampleRawZero, sampleRawZero2])
    ∧ (∃ r, runDailyStore 7 [sampleRawZero, sampleRawZero2] (fun _ => none)
          (rawKey sampleRawZero) = some r ∧ r.avg_latency_ms = none)
    ∧ (rawKey sampleRaw ∈ dailyKeys 7 [sampleRaw, sampleRaw2])
    ∧ (∃ r, runDailyStore 7 [sampleRaw, sampleRaw2] (fun _ => none)
          (rawKey sampleRaw) = some r
        ∧ r.avg_latency_ms = some (truncInt (201/2))) := by
  have hk1 : rawKey sampleRawZero ∈ dailyKeys 7 [sampleRawZero, sampleRawZero2] := by
    decide
  have hk2 : rawKey sampleRaw ∈ dailyKeys 7 [sampleRaw, sampleRaw2] := by decide
  have hg1 : groupOf 7 [sampleRawZero, sampleRawZero2] (rawKey sampleRawZero)
      = [sampleRawZero, sampleRawZero2] := by decide
  have hg2 : groupOf 7 [sampleRaw, sampleRaw2] (rawKey sampleRaw)
      = [sampleRaw, sampleRaw2] := by decide
  have hz : avgLatency (groupOf 7 [sampleRawZero, sampleRawZero2]
      (rawKey sampleRawZero)) = some 0 := by
    rw [hg1]
    simp [avgLatency, sampleRawZero, sampleRawZero2, sampleRaw]
  have ha : avgLatency (groupOf 7 [sampleRaw, sampleRaw2] (rawKey sampleRaw))
      = some (201/2) := by
    rw [hg2]
    simp [avgLatency, sampleRaw, sampleRaw2]
    norm_num
  have hne : ((201 : ℚ)/2) ≠ 0 := by simp
  exact ⟨hk1,
    (daily_avg_latency_zero_is_null 7 [sampleRawZero, sampleRawZero2]
      (fun _ => none) (rawKey sampleRawZero) hk1).1 hz,
    hk2,
    (daily_avg_latency_zero_is_null 7 [sampleRaw, sampleRaw2]
      (fun _ => none) (rawKey sampleRaw) hk2).2 (201/2) ha hne⟩

/-! ### Claim theorems: backfill -/

theorem dateRange_cons {startD endD : ℤ} (h : startD ≤ endD) :
    dateRange startD endD = startD :: dateRange (startD + 1) endD := by
  unfold dateRange
  have h1 : (endD + 1 - startD).toNat = (endD + 1 - (startD + 1)).toNat + 1 := by
    omega
  rw [h1, List.range_succ_eq_map, List.map_cons, List.map_map]
  congr 1
  · norm_num
  · apply List.map_congr_left
    intro i _
    simp only [Function.comp_apply]
    push_cast
    ring

theorem dateRange_stop {startD endD : ℤ} (h : ¬ startD ≤ endD) :
    dateRange startD endD = [] := by
  unfold dateRange
  have h1 : (endD + 1 - startD).toNat = 0 := by omega
  rw [h1]
  rfl

theorem mem_dateRange (startD endD d : ℤ) :
    d ∈ dateRange startD endD ↔ startD ≤ d ∧ d ≤ endD := by
  unfold dateRange
  simp only [List.mem_map, List.mem_range]
  constructor
  · rintro ⟨i, hi, rfl⟩
    omega
  · rintro ⟨h1, h2⟩
    exact ⟨(d - startD).toNat, by omega, by omega⟩

theorem backfill_spec_aux (raws : List RawRow) (endD : ℤ) :
    ∀ n : ℕ, ∀ startD : ℤ, ∀ s : DailyKey → Option DailyRow,
      (endD + 1 - startD).toNat = n →
      (backfill startD endD raws s).1
        = (dateRange startD endD).foldl (fun acc d => runDailyStore d raws acc) s
      ∧ (backfill startD endD raws s).2
        = ((dateRange startD endD).map (fun d => runDailyCount d raws)).sum := by
  intro n
  induction n with
  | zero =>
    intro startD s hn
    have hgt : ¬ startD ≤ endD := by omega
    rw [backfill, dif_neg hgt, dateRange_stop hgt]
    exact ⟨rfl, rfl⟩
  | succ m ih =>
    intro startD s hn
    have hle : startD ≤ endD := by omega
    obtain ⟨ih1, ih2⟩ := ih (startD + 1) (runDailyStore startD raws s) (by omega)
    rw [backfill, dif_pos hle, dateRange_cons hle]
    dsimp only
    constructor
    · rw [List.foldl_cons]
      exact ih1
    · rw [List.map_cons, List.sum_cons, ih2]

/-- C5: for start ≤ end, `backfill` invokes the daily job exactly once per
calendar day of the inclusive range, sequentially in date order, returns the
sum of the per-day row counts, and its effect on the daily summary store is
the sequential composition of the per-day runs. -/
theorem backfill_eq_sequential (startD endD : ℤ) (raws : List RawRow)
    (s : DailyKey → Option DailyRow) (h : startD ≤ endD) :
    (backfill startD endD raws s).1
      = (dateRange startD endD).foldl (fun acc d => runDailyStore d raws acc) s
    ∧ (backfill startD endD raws s).2
      = ((dateRange startD endD).map (fun d => runDailyCount d raws)).sum
    ∧ (dateRange startD endD).length = (endD + 1 - startD).toNat
    ∧ (∀ d : ℤ, d ∈ dateRange startD endD ↔ startD ≤ d ∧ d ≤ endD) := by
  obtain ⟨h1, h2⟩ := backfill_spec_aux raws endD (endD + 1 - startD).toNat startD s rfl
  refine ⟨h1, h2, ?_, mem_dateRange startD endD⟩
  unfold dateRange
  rw [List.length_map, List.length_range]

/-- Witness for C5 over the three-day range [5, 7]. -/
theorem backfill_eq_sequential_witness :
    ((5 : ℤ) ≤ 7)
    ∧ (backfill 5 7 [sampleRaw] (fun _ => none)).1
        = (dateRange 5 7).foldl (fun acc d => runDailyStore d [sampleRaw] acc)
            (fun _ => none)
    ∧ (backfill 5 7 [sampleRaw] (fun _ => none)).2
        = ((dateRange 5 7).map (fun d => runDailyCount d [sampleRaw])).sum
    ∧ (dateRange 5 7).length = 3 :=
  ⟨by decide,
   (backfill_eq_sequential 5 7 [sampleRaw] (fun _ => none) (by decide)).1,
   (backfill_eq_sequential 5 7 [sampleRaw] (fun _ => none) (by decide)).2.1,
   by decide⟩

/-! ### Calendar lemmas and monthly aggregation -/

theorem leapsBefore_succ (y : ℤ) :
    leapsBefore (y + 1) = leapsBefore y + (if IsLeap y then 1 else 0) := by
  unfold leapsBefore
  split_ifs with h
  · unfold IsLeap at h
    omega
  · unfold IsLeap at h
    omega

theorem daysBeforeMonth_succ (y m : ℤ) (h1 : 1 ≤ m) (h2 : m ≤ 11) :
    daysBeforeMonth y (m + 1) = daysBeforeMonth y m + daysInMonth y m := by
  have hm : m = 1 ∨ m = 2 ∨ m = 3 ∨ m = 4 ∨ m = 5 ∨ m = 6 ∨ m = 7 ∨ m = 8
      ∨ m = 9 ∨ m = 10 ∨ m = 11 := by omega
  rcases hm with rfl | rfl | rfl | rfl | rfl | rfl | rfl | rfl | rfl | rfl | rfl <;>
    by_cases hL : IsLeap y <;> simp [daysBeforeMonth, daysInMonth, hL]

/-- The month's last calendar day (as computed by the job via
"first of next month minus one day", including the December year-rollover
case) is the first day plus the month's length minus one. -/
theorem monthLastDay_eq (y m : ℤ) (h1 : 1 ≤ m) (h2 : m ≤ 12) :
    monthLastDay y m = monthFirstDay y m + daysInMonth y m - 1 := by
  by_cases h12 : m = 12
  · subst h12
    have hd : daysInMonth y 12 = 31 := by norm_num [daysInMonth]
    have hb : daysBeforeMonth (y + 1) 1 = 0 := by norm_num [daysBeforeMonth]
    have hb12 : daysBeforeMonth y 12 = 334 + (if IsLeap y then 1 else 0) := by
      norm_num [daysBeforeMonth]
    unfold monthLastDay monthFirstDay toOrd
    rw [if_pos rfl, leapsBefore_succ y, hd, hb, hb12]
    by_cases hL : IsLeap y
    · simp only [if_pos hL]
      ring
    · simp only [if_neg hL]
      ring
  · unfold monthLastDay monthFirstDay
    rw [if_neg h12]
    unfold toOrd
    rw [daysBeforeMonth_succ y m h1 (by omega)]
    omega

/-- The day ordinals in `[first_day, last_day]` are exactly the ordinals of
the month's calendar days. -/
theorem toOrd_mem_month_iff (y m d : ℤ) (h1 : 1 ≤ m) (h2 : m ≤ 12) :
    (monthFirstDay y m ≤ toOrd y m d ∧ toOrd y m d ≤ monthLastDay y m)
      ↔ (1 ≤ d ∧ d ≤ daysInMonth y m) := by
  rw [monthLastDay_eq y m h1 h2]
  unfold monthFirstDay toOrd
  omega

/-- C4: the monthly job sums exactly the daily summary rows whose date lies
in the month's first-through-last calendar day window (December handled by
the year rollover), grouped by tenant/provider/model with the cloud
dimension dropped, and upserts with full overwrite: a nonempty group's
resulting row carries exactly the group's summed total_tokens and
total_cost. -/
theorem monthly_aggregation_sums (y m : ℤ) (rows : List DailySumRow)
    (s : MonthlyKey → Option MonthlyRow) (t pr mo : String)
    (h1 : 1 ≤ m) (h2 : m ≤ 12) :
    (∀ d : ℤ, (monthFirstDay y m ≤ toOrd y m d ∧ toOrd y m d ≤ monthLastDay y m)
        ↔ (1 ≤ d ∧ d ≤ daysInMonth y m))
    ∧ monthLastDay y 12 = toOrd y 12 31
    ∧ (monthlyGroupOf y m rows ⟨t, y, m, pr, mo⟩ ≠ [] →
        ∃ r, runMonthlyStore y m rows s ⟨t, y, m, pr, mo⟩ = some r
          ∧ r.total_tokens
              = ((monthlyGroupOf y m rows ⟨t, y, m, pr, mo⟩).map
                  (·.total_tokens)).sum
          ∧ r.total_cost
              = ((monthlyGroupOf y m rows ⟨t, y, m, pr, mo⟩).map
                  (·.total_cost)).sum) := by
  refine ⟨fun d => toOrd_mem_month_iff y m d h1 h2, ?_, ?_⟩
  · have h31 : daysInMonth y 12 = 31 := by norm_num [daysInMonth]
    rw [monthLastDay_eq y 12 (by norm_num) (by norm_num), h31]
    unfold monthFirstDay toOrd
    ring
  · intro hne
    have hkmem : (⟨t, y, m, pr, mo⟩ : MonthlyKey) ∈ monthlyKeys y m rows := by
      obtain ⟨r0, hr0⟩ := List.exists_mem_of_ne_nil _ hne
      unfold monthlyGroupOf at hr0
      rw [List.mem_filter] at hr0
      obtain ⟨hrf, hcond⟩ := hr0
      rw [decide_eq_true_eq] at hcond
      obtain ⟨ht, hp, hm⟩ := hcond
      unfold monthlyKeys
      rw [List.mem_dedup, List.mem_map]
      exact ⟨r0, hrf, by simp [monthlyKeyOf, ht, hp, hm]⟩
    have hrow := runMonthlyStore_lookup y m rows s ⟨t, y, m, pr, mo⟩
    rw [if_pos hkmem] at hrow
    exact ⟨monthlyRowOf (monthlyGroupOf y m rows ⟨t, y, m, pr, mo⟩), hrow, rfl, rfl⟩

/-- Witness for C4: one daily row of January 2024 forms a nonempty group and
yields a monthly row with its sums. -/
theorem monthly_aggregation_sums_witness :
    ((1:ℤ) ≤ 1) ∧ ((1:ℤ) ≤ 12)
    ∧ monthlyGroupOf 2024 1 [sampleDaily] ⟨"t1", 2024, 1, "bedrock", "m"⟩ ≠ []
    ∧ (∃ r, runMonthlyStore 2024 1 [sampleDaily] (fun _ => none)
          ⟨"t1", 2024, 1, "bedrock", "m"⟩ = some r
        ∧ r.total_tokens
            = ((monthlyGroupOf 2024 1 [sampleDaily]
                ⟨"t1", 2024, 1, "bedrock", "m"⟩).map (·.total_tokens)).sum
        ∧ r.total_cost
            = ((monthlyGroupOf 2024 1 [sampleDaily]
                ⟨"t1", 2024, 1, "bedrock", "m"⟩).map (·.total_cost)).sum) := by
  have hne : monthlyGroupOf 2024 1 [sampleDaily]
      ⟨"t1", 2024, 1, "bedrock", "m"⟩ ≠ [] := by decide
  exact ⟨by decide, by decide, hne,
    (monthly_aggregation_sums 2024 1 [sampleDaily] (fun _ => none)
      "t1" "bedrock" "m" (by decide) (by decide)).2.2 hne⟩

/-! ### Claim theorems: summary query layer -/

/-- C7: with both dates omitted, the daily summary query runs over the
inclusive window from `today - 30 days` through today; it returns exactly
the tenant's daily rows of the window ordered newest-first, and the
response's rollup totals are the sums over the returned items themselves. -/
theorem daily_summary_query_defaults (table : List DailySumRow) (tenant : String)
    (today : ℤ) :
    (getDailySummary table tenant today none none).start_date = today - 30
    ∧ (getDailySummary table tenant today none none).end_date = today
    ∧ List.Perm (getDailySummary table tenant today none none).items
        (table.filter (fun r =>
          decide (r.tenant_id = tenant ∧ today - 30 ≤ r.date ∧ r.date ≤ today)))
    ∧ List.Pairwise (fun a b => b.date ≤ a.date)
        (getDailySummary table tenant today none none).items
    ∧ (getDailySummary table tenant today none none).total_cost
        = ((getDailySummary table tenant today none none).items.map
            (·.total_cost)).sum
    ∧ (getDailySummary table tenant today none none).total_tokens
        = ((getDailySummary table tenant today none none).items.map
            (·.total_tokens)).sum := by
  refine ⟨rfl, rfl, ?_, ?_, rfl, rfl⟩
  · exact List.mergeSort_perm _ _
  · have htrans : ∀ a b c : DailySumRow, decide (b.date ≤ a.date) = true →
        decide (c.date ≤ b.date) = true → decide (c.date ≤ a.date) = true := by
      intro a b c hab hbc
      rw [decide_eq_true_eq] at *
      omega
    have htotal : ∀ a b : DailySumRow,
        (decide (b.date ≤ a.date) || decide (a.date ≤ b.date)) = true := by
      intro a b
      rw [Bool.or_eq_true, decide_eq_true_eq, decide_eq_true_eq]
      omega
    have hs := @List.sorted_mergeSort DailySumRow
      (fun a b => decide (b.date ≤ a.date)) htrans htotal
      (table.filter (fun r =>
        decide (r.tenant_id = tenant ∧ today - 30 ≤ r.date ∧ r.date ≤ today)))
    exact List.Pairwise.imp (fun h => by
      rw [decide_eq_true_eq] at h
      exact h) hs

/-! ### Claim theorems: batch recorder -/

theorem foldl_batchStep {ε ρ : Type} (record1 : UsageEvent → Except ε ρ)
    (l : List UsageEvent) (acc : List ρ) :
    l.foldl (batchStep record1) acc
      = acc ++ l.filterMap (fun e => (record1 e).toOption) := by
  induction l generalizing acc with
  | nil => simp
  | cons hd tl ih =>
    rw [List.foldl_cons, List.filterMap_cons]
    cases hr : record1 hd with
    | ok r =>
      rw [show batchStep record1 acc hd = acc ++ [r] by rw [batchStep, hr], ih]
      simp [hr, Except.toOption]
    | error err =>
      rw [show batchStep record1 acc hd = acc by rw [batchStep, hr], ih]
      simp [hr, Except.toOption]

/-- C8: the batch recorder rejects batches of more than 1000 events with a
validation error; otherwise each event is recorded independently through the
per-event recorder, failures are silently dropped, and the returned list
holds exactly the successes in input order. -/
theorem record_usage_batch_spec {ε ρ : Type} (record1 : UsageEvent → Except ε ρ)
    (events : List UsageEvent) :
    recordUsageBatch record1 events
      = if events.length ≤ 1000
        then Except.ok (events.filterMap (fun e => (record1 e).toOption))
        else Except.error "Maximum batch size is 1000 events" := by
  unfold recordUsageBatch
  by_cases h : events.length > 1000
  · rw [if_pos h, if_neg (by omega)]
  · rw [if_neg h, if_pos (by omega), foldl_batchStep]
    rw [List.nil_append]

/-! ### Claim theorems: usage recorder invariants -/

theorem findPrefixMatch_mem {model : String} {l : List (String × ModelPrice)}
    {p : ModelPrice} (h : findPrefixMatch model l = some p) :
    ∃ k, (k, p) ∈ l := by
  induction l with
  | nil => simp [findPrefixMatch] at h
  | cons hd tl ih =>
    obtain ⟨k, v⟩ := hd
    rw [findPrefixMatch] at h
    split at h
    · cases h
      exact ⟨k, List.mem_cons_self _ _⟩
    · obtain ⟨k', hk'⟩ := ih h
      exact ⟨k', List.mem_cons_of_mem _ hk'⟩

theorem getModelPricing_nonneg {cfg : PricingData} (hwf : WellFormedPricing cfg)
    (provider model : String) :
    0 ≤ (getModelPricing cfg provider model).1
    ∧ 0 ≤ (getModelPricing cfg provider model).2 := by
  obtain ⟨hwt, hwd, _⟩ := hwf
  have htt : ∀ kv ∈ (dictGet (normalizeProvider provider) cfg.tables).getD [],
      0 ≤ kv.2.input_per_1k ∧ 0 ≤ kv.2.output_per_1k := by
    cases hd : dictGet (normalizeProvider provider) cfg.tables with
    | none => simp [hd]
    | some tbl =>
      rw [Option.getD_some]
      intro kv hkv
      exact hwt (normalizeProvider provider, tbl) (dictGet_mem hd) kv hkv
  simp only [getModelPricing]
  cases he : dictGet model ((dictGet (normalizeProvider provider) cfg.tables).getD [])
      with
  | some p =>
    simp only [he]
    exact htt (model, p) (dictGet_mem he)
  | none =>
    simp only [he]
    cases hp : findPrefixMatch model
        ((dictGet (normalizeProvider provider) cfg.tables).getD []) with
    | some p =>
      simp only [hp]
      obtain ⟨k, hk⟩ := findPrefixMatch_mem hp
      exact htt (k, p) hk
    | none =>
      simp only [hp]
      cases hdft : dictGet (normalizeProvider provider) cfg.defaults with
      | some p =>
        simp only [hdft]
        exact hwd (normalizeProvider provider, p) (dictGet_mem hdft)
      | none =>
        simp only [hdft]
        norm_num [globalDefaultPrice]

theorem discountOf_bounds {cfg : PricingData} (hwf : WellFormedPricing cfg)
    (tid : Option String) :
    0 ≤ discountOf cfg tid ∧ discountOf cfg tid ≤ 100 := by
  obtain ⟨_, _, hto⟩ := hwf
  cases tid with
  | none =>
    norm_num [discountOf]
  | some t =>
    show 0 ≤ getTenantDiscount cfg t ∧ getTenantDiscount cfg t ≤ 100
    unfold getTenantDiscount
    cases hd : dictGet t cfg.tenant_overrides with
    | none =>
      rw [Option.getD_none]
      norm_num
    | some q =>
      rw [Option.getD_some]
      exact hto (t, q) (dictGet_mem hd)

theorem calculateCost_nonneg {cfg : PricingData} (hwf : WellFormedPricing cfg)
    (provider model : String) (p c : ℕ) (tid : Option String) :
    0 ≤ calculateCost cfg provider model p c tid := by
  obtain ⟨hi, ho⟩ := getModelPricing_nonneg hwf provider model
  obtain ⟨hd0, hd100⟩ := discountOf_bounds hwf tid
  rw [calculateCost_eq]
  apply quantize10_nonneg
  have hbase : 0 ≤ (p : ℚ) / 1000 * (getModelPricing cfg provider model).1
      + (c : ℚ) / 1000 * (getModelPricing cfg provider model).2 :=
    add_nonneg (mul_nonneg (by positivity) hi) (mul_nonneg (by positivity) ho)
  split_ifs with h
  · apply mul_nonneg hbase
    linarith
  · exact hbase

/-- C9: a valid event accepted by `record_usage` under a well-formed pricing
configuration is persisted with `total_tokens = prompt + completion` and a
nonnegative `calculated_cost` equal to the Pricing Resolver's cost for the
event's provider, model, token counts and tenant. -/
theorem record_usage_invariants (cfg : PricingData) (e : UsageEvent)
    (hwf : WellFormedPricing cfg) (hv : ValidEvent e) :
    (recordUsage cfg e).total_tokens = e.prompt_tokens + e.completion_tokens
    ∧ (recordUsage cfg e).calculated_cost
        = calculateCost cfg e.provider e.model e.prompt_tokens
            e.completion_tokens (some e.tenant_id)
    ∧ 0 ≤ (recordUsage cfg e).calculated_cost :=
  ⟨rfl, rfl, calculateCost_nonneg hwf _ _ _ _ _⟩

theorem defaultPricing_wellFormed : WellFormedPricing defaultPricingData := by
  refine ⟨?_, ?_, ?_⟩
  · intro entry hentry
    simp [defaultPricingData] at hentry
  · intro dp hdp
    simp only [defaultPricingData, List.mem_cons, List.mem_singleton] at hdp
    rcases hdp with rfl | rfl | rfl | h
    · norm_num
    · norm_num
    · norm_num
    · simp at h
  · intro t ht
    simp [defaultPricingData] at ht

/-- Witness for C9 at the spec's scenario event under the built-in default
pricing data. -/
theorem record_usage_invariants_witness :
    WellFormedPricing defaultPricingData
    ∧ ValidEvent sampleEvent
    ∧ (recordUsage defaultPricingData sampleEvent).total_tokens = 1500
    ∧ 0 ≤ (recordUsage defaultPricingData sampleEvent).calculated_cost := by
  have h1 := defaultPricing_wellFormed
  have h2 : ValidEvent sampleEvent := by decide
  obtain ⟨ht, _, hc⟩ := record_usage_invariants defaultPricingData sampleEvent h1 h2
  refine ⟨h1, h2, ?_, hc⟩
  rw [ht]
  rfl

/-- Witness for C1 at the spec's scenario input (zero configured discount). -/
theorem calculate_cost_formula_witness :
    0 ≤ discountOf defaultPricingData (some "t1")
    ∧ calculateCost defaultPricingData "bedrock" "anthropic.claude-3-sonnet"
        1000 500 (some "t1") = 0.005 :=
  ⟨le_of_eq (default_discount_zero (some "t1")).symm,
   (calculate_cost_formula defaultPricingData "bedrock" "anthropic.claude-3-sonnet"
      1000 500 (some "t1")
      (le_of_eq (default_discount_zero (some "t1")).symm)).2.2⟩

end TokenTrackr
